import Mathlib

set_option maxHeartbeats 1000000

/-!
Shallow embedding of the ai-chat-server core (easonssun/ai-chat-server) and
proofs about its history store, streaming turn, retrieval integration and
document chunker.  Every definition mirrors a function of the repository
source; the file mentions the source file and line range it embeds.
-/

namespace AIChat

/-! Data model of src/llm/chat_history.py.

A chat message, as handled by MongoDBChatMessageHistory.  The langchain
BaseMessage carries a type tag (human / ai / system) and a content string;
additional metadata is irrelevant to the claims and elided. -/

structure Message where
  type : String
  content : String
deriving DecidableEq, BEq, Repr

/-- One MongoDB document of the chat_histories collection, as built by
MongoDBChatMessageHistory.add_message (chat_history.py lines 111-119):
session_id, message_index, and the message payload (type / data fields are
folded into msg; timestamps are irrelevant to the claims and elided). -/
structure StoredDoc where
  session_id : String
  message_index : Nat
  msg : Message
deriving DecidableEq, BEq, Repr

/-- The mutable state of one MongoDBChatMessageHistory object: the durable
MongoDB collection (store, in insertion order) and the in-memory cache
self._messages (chat_history.py line 59). -/
structure HistoryState where
  store : List StoredDoc
  cache : List Message
deriving DecidableEq, BEq, Repr

/-- MongoDBChatMessageHistory.add_message (chat_history.py lines 101-126) as
the ordered list of states the object passes through, paired with the call
result.  The Python method first appends to the in-memory list
(self._messages.append, line 104), then attempts the durable insert_one
(line 121); on a raised exception it pops the cached message (line 125) and
re-raises.  writeOk models whether insert_one succeeds.  The assigned
message_index is computed from the cache length after the append
(len(self._messages) - 1, line 109). -/
def add_message_trace (sid : String) (writeOk : Bool) (m : Message)
    (s : HistoryState) : List HistoryState × Except String Unit :=
  let s1 : HistoryState := { s with cache := s.cache ++ [m] }
  if writeOk then
    let doc : StoredDoc :=
      { session_id := sid, message_index := s1.cache.length - 1, msg := m }
    let s2 : HistoryState := { s1 with store := s1.store ++ [doc] }
    ([s, s1, s2], Except.ok ())
  else
    let s2 : HistoryState := { s1 with cache := s1.cache.dropLast }
    ([s, s1, s2], Except.error "保存消息到数据库失败")

/-- The final state and result of one add_message call. -/
def add_message (sid : String) (writeOk : Bool) (m : Message)
    (s : HistoryState) : HistoryState × Except String Unit :=
  ((add_message_trace sid writeOk m s).1.getLastD s,
   (add_message_trace sid writeOk m s).2)

/-- The messages property (chat_history.py lines 96-99): returns the cache. -/
def messages (s : HistoryState) : List Message :=
  s.cache

/-- MongoDBChatMessageHistory.get_message_count (chat_history.py lines
153-155): the length of the in-memory cache. -/
def get_message_count (s : HistoryState) : Nat :=
  s.cache.length

/-- The Python slice xs[-n:] on a list, for a non-negative n.  For n >= 1 the
start index is max(len - n, 0), which Nat subtraction expresses exactly; for
n = 0 the slice xs[-0:] is xs[0:], the whole list. -/
def pySliceLastN (xs : List Message) (n : Nat) : List Message :=
  if n = 0 then xs else xs.drop (xs.length - n)

/-- MongoDBChatMessageHistory.get_recent_messages (chat_history.py lines
157-159): self._messages[-count:] if self._messages else []. -/
def get_recent_messages (s : HistoryState) (count : Nat) : List Message :=
  if s.cache.isEmpty then [] else pySliceLastN s.cache count

/-- A state in which every cached message is durably persisted for the
session: the durability predicate the spec attributes to the cache. -/
def cacheDurableB (sid : String) (st : HistoryState) : Bool :=
  st.cache.all (fun m => st.store.any (fun d => d.session_id == sid && d.msg == m))

/-- Stable ascending insertion by message_index, the ordering MongoDB's
sort("message_index", ASCENDING) applies to the found documents. -/
def insertByIndex (d : StoredDoc) : List StoredDoc → List StoredDoc
  | [] => [d]
  | e :: rest =>
    if d.message_index < e.message_index then d :: e :: rest
    else e :: insertByIndex d rest

/-- Insertion sort by message_index ascending. -/
def sortByIndex : List StoredDoc → List StoredDoc
  | [] => []
  | d :: rest => insertByIndex d (sortByIndex rest)

/-- MongoDBChatMessageHistory._load_messages (chat_history.py lines 71-94):
find all documents of the session, sort by message_index ascending, and
rebuild the messages (the dict round trip through messages_from_dict is the
identity at this level of the data model). -/
def _load_messages (store : List StoredDoc) (sid : String) : List Message :=
  (sortByIndex (store.filter (fun d => d.session_id == sid))).map
    (fun d => d.msg)

/-- N successive successful add_message calls, left to right. -/
def append_all (sid : String) (msgs : List Message) (s : HistoryState) :
    HistoryState :=
  msgs.foldl (fun st m0 => (add_message sid true m0 st).1) s

/-- The stored documents a run of successful appends produces: message i of
the list is stored with message_index i0 + i.  Specification artifact used to
state the sequence-index claims. -/
def enumDocs (sid : String) : Nat → List Message → List StoredDoc
  | _, [] => []
  | i, m :: rest => { session_id := sid, message_index := i, msg := m } :: enumDocs sid (i + 1) rest

/-! Streaming turn, src/main.py lines 29-82. -/

/-- A streaming event as put on the asyncio queue by the StreamCallback
callbacks of generate_response (main.py lines 39-49); the JSON wrapping
json.dumps applies to each event is elided (type and content are the
payload). -/
inductive StreamEvent where
  | token (content : String)
  | done
  | errorEv (content : String)
deriving DecidableEq, BEq, Repr

/-- The outcome of one model invocation: the chain either completes (firing
on_llm_end) or fails (firing on_llm_error, or raising out of ainvoke into
the except branch of run_model, main.py lines 64-66 — both paths enqueue one
error event and the None sentinel). -/
inductive ModelOutcome where
  | completed
  | failed (e : String)
deriving DecidableEq, Repr

/-- The queue contents one turn produces (main.py lines 39-49): the model's
fragments are put as token events in emission order by on_llm_new_token; the
terminal callback then puts exactly one done or error event followed by the
None end-of-stream sentinel. -/
def queueItems (frags : List String) : ModelOutcome → List (Option StreamEvent)
  | ModelOutcome.completed =>
      frags.map (fun t => some (StreamEvent.token t)) ++ [some StreamEvent.done, none]
  | ModelOutcome.failed e =>
      frags.map (fun t => some (StreamEvent.token t)) ++ [some (StreamEvent.errorEv e), none]

/-- The consumer loop of generate_response (main.py lines 72-76): dequeue in
FIFO order and yield every item until the None sentinel, then stop. -/
def drainUntilNone : List (Option StreamEvent) → List StreamEvent
  | [] => []
  | none :: _ => []
  | some ev :: rest => ev :: drainUntilNone rest

/-- The event stream generate_response delivers to the consumer for one turn
in which the model emits frags and then terminates with outcome. -/
def generate_response (frags : List String) (outcome : ModelOutcome) :
    List StreamEvent :=
  drainUntilNone (queueItems frags outcome)

/-- Whether an event is terminal (done or error). -/
def StreamEvent.isTerminal : StreamEvent → Bool
  | StreamEvent.token _ => false
  | StreamEvent.done => true
  | StreamEvent.errorEv _ => true

/-- The terminal event a given model outcome produces. -/
def terminalOf : ModelOutcome → StreamEvent
  | ModelOutcome.completed => StreamEvent.done
  | ModelOutcome.failed e => StreamEvent.errorEv e

/-! The chat endpoint, src/main.py lines 24-25 and 85-97. -/

namespace ChatRequest

/-- The pydantic request model ChatRequest (main.py lines 24-25): a single
field input of plain type str.  A plain str field performs no emptiness or
content validation, so every string — the empty string included — is
accepted. -/
def validate (input : String) : Except String String :=
  Except.ok input

end ChatRequest

/-- The chat endpoint (main.py lines 85-97): parse the request, then stream
generate_response over the model's output; no check of the input text is
performed before the model invocation. -/
def chat (input : String) (frags : List String) (outcome : ModelOutcome) :
    Except String (List StreamEvent) :=
  match ChatRequest.validate input with
  | Except.error e => Except.error e
  | Except.ok _t => Except.ok (generate_response frags outcome)

/-! Retrieval, src/rag/rag_system.py lines 161-169 and
src/llm/rag_integration.py lines 23-71. -/

/-- A langchain Document as returned by similarity_search: page content and
a metadata map. -/
structure Document where
  page_content : String
  metadata : List (String × String)
deriving DecidableEq, BEq, Repr

/-- Python dict.get(key, default) on the metadata map. -/
def metaGetD (meta : List (String × String)) (key dflt : String) : String :=
  match meta.find? (fun p => p.1 == key) with
  | some p => p.2
  | none => dflt

namespace RAGSystem

/-- RAGSystem.search (rag_system.py lines 161-169).  The backend argument is
the result of vector_store.similarity_search: a list of documents, or a
raised exception (for example when the Milvus index cannot be reached).  The
method wraps the call in try/except, prints the error, and returns the empty
list — so the caller can never observe an exception. -/
def search (backend : Except String (List Document)) :
    Except String (List Document) :=
  match backend with
  | Except.ok results => Except.ok results
  | Except.error _e => Except.ok []

end RAGSystem

/-- The dict built for each result by RAGIntegration.search_documents
(rag_integration.py lines 38-43). -/
structure FormattedDoc where
  content : String
  metadata : List (String × String)
  source : String
deriving DecidableEq, BEq, Repr

/-- RAGIntegration.search_documents (rag_integration.py lines 23-48): call
RAGSystem.search and reshape each document; its own try/except also returns
the empty list on any raised exception. -/
def search_documents (backend : Except String (List Document)) :
    List FormattedDoc :=
  match RAGSystem.search backend with
  | Except.ok results =>
      results.map (fun doc =>
        { content := doc.page_content, metadata := doc.metadata,
          source := metaGetD doc.metadata "source" "Unknown" })
  | Except.error _e => []

/-- One numbered context entry, the f-string of rag_integration.py lines
65-68. -/
def renderEntry (i : Nat) (d : FormattedDoc) : String :=
  "文档 " ++ toString i ++ ":\n内容: " ++ d.content ++ "\n来源: " ++ d.source ++ "\n"

/-- Python str.join: sep.join(parts) is empty on no parts, and otherwise
folds the tail onto the head with the separator between elements. -/
def pyJoin (sep : String) : List String → String
  | [] => ""
  | p :: rest => rest.foldl (fun acc x => acc ++ sep ++ x) p

/-- RAGIntegration.format_context_for_prompt (rag_integration.py lines
50-71): the fixed marker on an empty result, else the newline join of the
numbered entries produced by enumerate(documents, 1). -/
def format_context_for_prompt (documents : List FormattedDoc) : String :=
  if documents.isEmpty then "未找到相关文档。"
  else pyJoin "\n" ((documents.enumFrom 1).map (fun p => renderEntry p.1 p.2))

/-- The numbered in-order rendering, written as direct recursion: entry i for
the head, then entries i+1, i+2, ... for the rest, separated by newlines.
Specification artifact compared against format_context_for_prompt. -/
def renderedFrom (i : Nat) : List FormattedDoc → String
  | [] => ""
  | [d] => renderEntry i d
  | d :: rest => renderEntry i d ++ "\n" ++ renderedFrom (i + 1) rest

namespace Chunker

/-- A document chunk: text, source identifier and start offset.
Modelled from the spec: the Document Chunker of spec section 4.4.  The
repository delegates chunking to the external langchain
RecursiveCharacterTextSplitter (rag_system.py lines 147-153, with
chunk_size W = 1000, chunk_overlap O = 200 and add_start_index true); the
splitting algorithm itself is library code absent from this repository, so
the chunk data model follows the spec's words. -/
structure Chunk where
  text : List Char
  source_id : String
  start : Nat
deriving DecidableEq, BEq, Repr

/-- The number of windows of stride s covering a text of length len: the
ceiling of len / s (zero windows for empty text). -/
def numWindows (s len : Nat) : Nat :=
  (len + s - 1) / s

/-- Modelled from the spec: split(document_text, source_id) of spec section
4.4, the fixed-window chunker with window size W and overlap O < W.  Window
i starts at i * (W - O) — sequential, non-skipping — and holds the W
characters of the text from that offset; windows are produced while their
start lies inside the text. -/
def split (W O : Nat) (sid : String) (text : List Char) : List Chunk :=
  (List.range (numWindows (W - O) text.length)).map
    (fun i =>
      { text := (text.drop (i * (W - O))).take W, source_id := sid,
        start := i * (W - O) })

end Chunker

/-! Theorems. -/

/-- C1 counterexample: on the successful-write path of add_message for a fresh
session, the intermediate state reached right after the cache append (index 1
of the trace) holds the new message in the cache while the durable store is
still empty, so the cache does contain a message that is not durably
persisted at an intermediate point — the durable-store write does not happen
before the in-memory cache update. -/
theorem c1_cache_updated_before_durable_write_cex :
    (add_message_trace "s" true { type := "human", content := "hi" }
        { store := [], cache := [] }).1.get? 1 =
      some { store := [], cache := [{ type := "human", content := "hi" }] } ∧
    cacheDurableB "s"
      { store := [], cache := [{ type := "human", content := "hi" }] } = false := by
  decide

/-- C1 amended: add_message updates the in-memory cache first and performs the
durable write second.  The trace of every call is exactly: initial state,
then the state with the message appended to the cache and the store yet
untouched, then the final state; on a successful write the final state has
the message both cached and stored (with index equal to the prior cache
length), and on a failed write the cache append is rolled back so the final
state equals the initial state. -/
theorem c1_append_cache_first_then_rollback (sid : String) (writeOk : Bool)
    (m : Message) (s : HistoryState) :
    (add_message_trace sid writeOk m s).1 =
      [s, { s with cache := s.cache ++ [m] }, (add_message sid writeOk m s).1] ∧
    (writeOk = true →
      (add_message sid writeOk m s).1 =
        { store := s.store ++
            [{ session_id := sid, message_index := s.cache.length, msg := m }],
          cache := s.cache ++ [m] }) ∧
    (writeOk = false → (add_message sid writeOk m s).1 = s) := by
  cases writeOk <;>
    simp [add_message, add_message_trace, List.dropLast_concat]

/-- C1 amended, witness at a concrete input. -/
theorem c1_append_cache_first_then_rollback_witness :
    (add_message "s" true { type := "human", content := "hi" }
        { store := [], cache := [] }).1 =
      { store := [{ session_id := "s", message_index := 0,
                    msg := { type := "human", content := "hi" } }],
        cache := [{ type := "human", content := "hi" }] } :=
  (c1_append_cache_first_then_rollback "s" true
    { type := "human", content := "hi" } { store := [], cache := [] }).2.1 rfl

/-- C2: when the durable write fails, add_message raises (returns an error —
the code raises a generic Exception, which the spec's taxonomy names
PersistenceError), and the final state is exactly the initial one: the
message pushed onto the cache is popped again, so messages, the message
count and every recent view are unchanged and never show the unsaved
message. -/
theorem c2_failed_write_leaves_state_unchanged (sid : String) (m : Message)
    (s : HistoryState) (n : Nat) :
    (∃ e, (add_message sid false m s).2 = Except.error e) ∧
    (add_message sid false m s).1 = s ∧
    messages (add_message sid false m s).1 = messages s ∧
    get_message_count (add_message sid false m s).1 = get_message_count s ∧
    get_recent_messages (add_message sid false m s).1 n =
      get_recent_messages s n := by
  have hs : (add_message sid false m s).1 = s := by
    simp [add_message, add_message_trace, List.dropLast_concat]
  refine ⟨⟨"保存消息到数据库失败", ?_⟩, hs, by rw [hs], by rw [hs], by rw [hs]⟩
  simp [add_message, add_message_trace]

/-- C7 counterexample: with a single cached message, recent with n = 2 returns
that message — the whole list — not the empty sequence the claim states for
the fewer-than-n case. -/
theorem c7_recent_fewer_than_n_cex :
    get_recent_messages
        { store := [], cache := [{ type := "human", content := "hi" }] } 2 =
      [{ type := "human", content := "hi" }] ∧
    [{ type := "human", content := "hi" }] ≠ ([] : List Message) := by
  decide

/-- C7 amended: for n >= 1, recent returns the last min(n, count) messages —
the Python slice self._messages[-n:] — so when fewer than n messages exist it
returns all of them (not an empty sequence), and it never errors for n larger
than the current message count. -/
theorem c7_recent_returns_last_min (s : HistoryState) (n : Nat)
    (hn : 1 ≤ n) :
    get_recent_messages s n = s.cache.drop (s.cache.length - n) ∧
    (get_recent_messages s n).length = min n s.cache.length ∧
    (s.cache.length ≤ n → get_recent_messages s n = s.cache) := by
  have hne : ¬ n = 0 := by omega
  have h1 : get_recent_messages s n = s.cache.drop (s.cache.length - n) := by
    cases hc : s.cache with
    | nil => simp [get_recent_messages, hc]
    | cons a l => simp [get_recent_messages, pySliceLastN, hc, hne]
  refine ⟨h1, ?_, ?_⟩
  · rw [h1, List.length_drop]; omega
  · intro hle
    rw [h1]
    have : s.cache.length - n = 0 := by omega
    simp [this]

/-- C7 amended, witness at a concrete input. -/
theorem c7_recent_returns_last_min_witness :
    get_recent_messages
        { store := [], cache := [{ type := "human", content := "hi" }] } 2 =
      [{ type := "human", content := "hi" }] :=
  (c7_recent_returns_last_min
      { store := [], cache := [{ type := "human", content := "hi" }] } 2
      (by decide)).2.2 (by decide)

/-- C10: for a non-empty history, recent with n = 0 returns the entire message
list: the Python slice self._messages[-0:] is self._messages[0:], the whole
list. -/
theorem c10_recent_zero_returns_all (s : HistoryState)
    (h : s.cache ≠ []) :
    get_recent_messages s 0 = s.cache := by
  have : ¬ s.cache.isEmpty = true := by
    cases hc : s.cache with
    | nil => exact absurd hc h
    | cons a l => simp [hc]
  simp [get_recent_messages, pySliceLastN, this]

/-- C10, witness at a concrete input. -/
theorem c10_recent_zero_returns_all_witness :
    get_recent_messages
        { store := [], cache := [{ type := "human", content := "hi" }] } 0 =
      [{ type := "human", content := "hi" }] :=
  c10_recent_zero_returns_all
    { store := [], cache := [{ type := "human", content := "hi" }] }
    (by decide)

/-- Draining a queue that starts with token items yields those tokens and
then continues with the rest of the queue. -/
theorem drainUntilNone_tokens (frags : List String)
    (rest : List (Option StreamEvent)) :
    drainUntilNone (frags.map (fun t => some (StreamEvent.token t)) ++ rest) =
      frags.map StreamEvent.token ++ drainUntilNone rest := by
  induction frags with
  | nil => rfl
  | cons a l ih => simp [drainUntilNone, ih]

/-- Token events are never terminal, so filtering them for terminals yields
nothing. -/
theorem filter_tokens_isTerminal (frags : List String) :
    (frags.map StreamEvent.token).filter (fun ev => ev.isTerminal) = [] := by
  induction frags with
  | nil => rfl
  | cons a l ih => simp [List.filter, StreamEvent.isTerminal, ih]

/-- C3: the event stream of one turn is exactly the model's fragments as
token events in emission order (strict FIFO, no reordering, no coalescing)
followed by the single terminal event of the turn's outcome; exactly one
terminal event occurs, every event before the last is a non-terminal token,
and the last event is the terminal one — nothing is emitted after it. -/
theorem c3_stream_fifo_single_terminal (frags : List String)
    (outcome : ModelOutcome) :
    generate_response frags outcome =
      frags.map StreamEvent.token ++ [terminalOf outcome] ∧
    ((generate_response frags outcome).filter
        (fun ev => ev.isTerminal)).length = 1 ∧
    ((generate_response frags outcome).dropLast.all
        (fun ev => !ev.isTerminal)) = true ∧
    (generate_response frags outcome).getLast? = some (terminalOf outcome) ∧
    (terminalOf outcome).isTerminal = true := by
  have heq : generate_response frags outcome =
      frags.map StreamEvent.token ++ [terminalOf outcome] := by
    cases outcome <;>
      simp [generate_response, queueItems, terminalOf, drainUntilNone_tokens,
        drainUntilNone]
  have hterm : (terminalOf outcome).isTerminal = true := by
    cases outcome <;> rfl
  refine ⟨heq, ?_, ?_, ?_, hterm⟩
  · rw [heq, List.filter_append, filter_tokens_isTerminal]
    simp [hterm]
  · rw [heq, List.dropLast_concat, List.all_eq_true]
    intro ev hev
    obtain ⟨t, _ht, rfl⟩ := List.mem_map.mp hev
    rfl
  · rw [heq]
    simp

/-- C5 counterexample: when the backing vector index cannot be reached (the
similarity search raises), RAGSystem.search returns an ordinary empty result
instead of failing — the exception is absorbed by its try/except, and
search_documents likewise returns the empty list; no IndexUnavailableError
reaches the caller. -/
theorem c5_index_unreachable_absorbed_cex :
    RAGSystem.search (Except.error "vector index unreachable") =
      Except.ok ([] : List Document) ∧
    search_documents (Except.error "vector index unreachable") = [] := by
  exact ⟨rfl, rfl⟩

/-- C5 amended: retrieval on a collection with no matching chunks returns the
empty result without throwing, and retrieval when the backing vector index
cannot be reached also returns the empty result without throwing: the error
is caught inside search (and search_documents), logged, and silently
absorbed rather than surfaced as an IndexUnavailableError. -/
theorem c5_search_never_errors (found : List Document) (e : String) :
    RAGSystem.search (Except.ok found) = Except.ok found ∧
    RAGSystem.search (Except.error e) = Except.ok [] ∧
    search_documents (Except.ok []) = [] ∧
    search_documents (Except.error e) = [] := by
  exact ⟨rfl, rfl, rfl, rfl⟩

/-- C6 counterexample: the empty input text is accepted — ChatRequest's plain
str field performs no emptiness validation — and the turn proceeds to the
model invocation, streaming its events; no ValidationError is raised before
side effects. -/
theorem c6_empty_input_accepted_cex :
    ChatRequest.validate "" = Except.ok "" ∧
    chat "" ["Flood"] ModelOutcome.completed =
      Except.ok [StreamEvent.token "Flood", StreamEvent.done] := by
  exact ⟨rfl, rfl⟩

/-- C6 amended: no input validation exists — every input string, the empty
string included, is accepted by the request model and forwarded to
generation; the turn's stream is produced regardless of the input text. -/
theorem c6_no_input_validation (input : String) (frags : List String)
    (outcome : ModelOutcome) :
    ChatRequest.validate input = Except.ok input ∧
    chat input frags outcome = Except.ok (generate_response frags outcome) := by
  exact ⟨rfl, rfl⟩

/-- A successful add_message appends the message to the cache and appends a
document carrying the next sequence index — the prior cache length — to the
store. -/
theorem add_message_ok (sid : String) (m : Message) (s : HistoryState) :
    (add_message sid true m s).1 =
      { store := s.store ++
          [{ session_id := sid, message_index := s.cache.length, msg := m }],
        cache := s.cache ++ [m] } := by
  simp [add_message, add_message_trace]

/-- Appending one message to the enumerated block extends it with the next
index. -/
theorem enumDocs_concat (sid : String) (i : Nat) (xs : List Message)
    (m : Message) :
    enumDocs sid i (xs ++ [m]) =
      enumDocs sid i xs ++
        [{ session_id := sid, message_index := i + xs.length, msg := m }] := by
  induction xs generalizing i with
  | nil => simp [enumDocs]
  | cons a l ih =>
    have harith : i + 1 + l.length = i + (l.length + 1) := by omega
    simp [enumDocs, ih, harith]

/-- A run of successful appends extends the cache with the message list and
extends the store with the block of documents indexed consecutively from the
prior cache length. -/
theorem append_all_spec (sid : String) (msgs : List Message)
    (s : HistoryState) :
    (append_all sid msgs s).cache = s.cache ++ msgs ∧
    (append_all sid msgs s).store =
      s.store ++ enumDocs sid s.cache.length msgs := by
  induction msgs generalizing s with
  | nil => simp [append_all, enumDocs]
  | cons m l ih =>
    have h1 : append_all sid (m :: l) s =
        append_all sid l ((add_message sid true m s).1) := by
      simp [append_all]
    rw [h1, add_message_ok]
    obtain ⟨hc, hs⟩ :=
      ih { store := s.store ++
             [{ session_id := sid, message_index := s.cache.length, msg := m }],
           cache := s.cache ++ [m] }
    constructor
    · rw [hc]; simp
    · rw [hs]; simp [enumDocs]

/-- Every document of an enumerated block has index at least the block's
base index. -/
theorem enumDocs_index_ge (sid : String) (i : Nat) (xs : List Message) :
    ∀ e ∈ enumDocs sid i xs, i ≤ e.message_index := by
  induction xs generalizing i with
  | nil => intro e he; simp [enumDocs] at he
  | cons m l ih =>
    intro e he
    simp only [enumDocs, List.mem_cons] at he
    rcases he with rfl | he
    · exact Nat.le_refl i
    · have := ih (i + 1) e he
      omega

/-- Inserting an element whose index is below every index of the list puts
it at the head. -/
theorem insertByIndex_head_lt (d : StoredDoc) (l : List StoredDoc)
    (h : ∀ e ∈ l, d.message_index < e.message_index) :
    insertByIndex d l = d :: l := by
  cases l with
  | nil => rfl
  | cons e rest =>
    simp [insertByIndex, h e (List.mem_cons_self e rest)]

/-- Sorting an already consecutively indexed block by index is the
identity. -/
theorem sortByIndex_enumDocs (sid : String) (i : Nat) (xs : List Message) :
    sortByIndex (enumDocs sid i xs) = enumDocs sid i xs := by
  induction xs generalizing i with
  | nil => rfl
  | cons m l ih =>
    simp only [enumDocs, sortByIndex, ih]
    apply insertByIndex_head_lt
    intro e he
    have h1 := enumDocs_index_ge sid (i + 1) l e he
    show i < e.message_index
    omega

/-- Every document of an enumerated block belongs to the session, so the
session filter keeps the whole block. -/
theorem filter_enumDocs (sid : String) (i : Nat) (xs : List Message) :
    (enumDocs sid i xs).filter (fun d => d.session_id == sid) =
      enumDocs sid i xs := by
  induction xs generalizing i with
  | nil => rfl
  | cons m l ih => simp [enumDocs, List.filter, ih]

/-- Projecting the messages out of an enumerated block recovers the message
list. -/
theorem map_msg_enumDocs (sid : String) (i : Nat) (xs : List Message) :
    (enumDocs sid i xs).map (fun d => d.msg) = xs := by
  induction xs generalizing i with
  | nil => rfl
  | cons m l ih => simp [enumDocs, ih]

/-- The indices of an enumerated block are consecutive from the base. -/
theorem map_index_enumDocs (sid : String) (i : Nat) (xs : List Message) :
    (enumDocs sid i xs).map (fun d => d.message_index) =
      (List.range xs.length).map (fun k => k + i) := by
  induction xs generalizing i with
  | nil => simp [enumDocs]
  | cons m l ih =>
    simp only [enumDocs, List.map_cons, ih, List.length_cons,
      List.range_succ_eq_map, List.map_map]
    congr 1
    · omega
    · apply List.map_congr_left
      intro k _
      simp only [Function.comp_apply]
      omega

/-- C4: starting from a fresh session, each successful append stores its
message under a sequence index equal to the count of messages already in the
session, so after the N appends the store holds exactly the N messages under
indices 0..N-1 (strictly increasing, gap-free), and load returns exactly the
N messages in ascending index order — the insertion order. -/
theorem c4_append_assigns_sequential_indices (sid : String)
    (msgs : List Message) :
    (append_all sid msgs { store := [], cache := [] }).cache = msgs ∧
    (append_all sid msgs { store := [], cache := [] }).store =
      enumDocs sid 0 msgs ∧
    _load_messages (append_all sid msgs { store := [], cache := [] }).store
      sid = msgs ∧
    (append_all sid msgs { store := [], cache := [] }).store.map
      (fun d => d.message_index) = List.range msgs.length := by
  obtain ⟨hc, hs⟩ := append_all_spec sid msgs { store := [], cache := [] }
  simp only [List.nil_append, List.length_nil] at hc hs
  refine ⟨hc, hs, ?_, ?_⟩
  · rw [hs, _load_messages, filter_enumDocs, sortByIndex_enumDocs,
      map_msg_enumDocs]
  · rw [hs, map_index_enumDocs]
    simp

/-- Pulling a left factor out of the Python join fold. -/
theorem pyJoin_foldl_pull (sep a b : String) (l : List String) :
    l.foldl (fun acc x => acc ++ sep ++ x) (a ++ b) =
      a ++ l.foldl (fun acc x => acc ++ sep ++ x) b := by
  induction l generalizing b with
  | nil => rfl
  | cons x xs ih =>
    simp only [List.foldl_cons]
    rw [String.append_assoc a b sep, String.append_assoc a (b ++ sep) x]
    exact ih ((b ++ sep) ++ x)

/-- The Python join of a list with at least two parts splits off its head
with one separator. -/
theorem pyJoin_cons (sep p q : String) (rest : List String) :
    pyJoin sep (p :: q :: rest) = p ++ sep ++ pyJoin sep (q :: rest) := by
  show rest.foldl (fun acc x => acc ++ sep ++ x) ((p ++ sep) ++ q) =
    (p ++ sep) ++ rest.foldl (fun acc x => acc ++ sep ++ x) q
  exact pyJoin_foldl_pull sep (p ++ sep) q rest

/-- The enumerate-map-join pipeline of format_context_for_prompt equals the
direct recursive rendering. -/
theorem pyJoin_entries_renderedFrom (i : Nat) (docs : List FormattedDoc) :
    pyJoin "\n" ((docs.enumFrom i).map (fun p => renderEntry p.1 p.2)) =
      renderedFrom i docs := by
  induction docs generalizing i with
  | nil => rfl
  | cons d rest ih =>
    cases rest with
    | nil => rfl
    | cons d2 r2 =>
      have h1 : ((d :: d2 :: r2).enumFrom i).map (fun p => renderEntry p.1 p.2) =
          renderEntry i d ::
            (((d2 :: r2).enumFrom (i + 1)).map (fun p => renderEntry p.1 p.2)) := rfl
      have h2 : (((d2 :: r2).enumFrom (i + 1)).map
          (fun p => renderEntry p.1 p.2)) =
          renderEntry (i + 1) d2 ::
            ((r2.enumFrom (i + 2)).map (fun p => renderEntry p.1 p.2)) := rfl
      rw [h1, h2, pyJoin_cons, ← h2, ih (i + 1)]
      rfl

/-- The recursive rendering contains each entry, numbered from the base, in
order: it splits around entry j for every j. -/
theorem renderedFrom_contains (docs : List FormattedDoc) (i j : Nat)
    (hj : j < docs.length) :
    ∃ pre post, renderedFrom i docs =
      pre ++ renderEntry (i + j) (docs.get ⟨j, hj⟩) ++ post := by
  induction docs generalizing i j with
  | nil => simp at hj
  | cons d rest ih =>
    cases j with
    | zero =>
      cases rest with
      | nil =>
        refine ⟨"", "", ?_⟩
        simp [renderedFrom]
      | cons d2 r2 =>
        refine ⟨"", "\n" ++ renderedFrom (i + 1) (d2 :: r2), ?_⟩
        show renderedFrom i (d :: d2 :: r2) = _
        rw [show renderedFrom i (d :: d2 :: r2) =
          renderEntry i d ++ "\n" ++ renderedFrom (i + 1) (d2 :: r2) from rfl]
        simp [String.append_assoc]
    | succ k =>
      cases rest with
      | nil => simp at hj
      | cons d2 r2 =>
        obtain ⟨pre, post, hp⟩ := ih (i + 1) k (by simp at hj ⊢; omega)
        refine ⟨renderEntry i d ++ "\n" ++ pre, post, ?_⟩
        rw [show renderedFrom i (d :: d2 :: r2) =
          renderEntry i d ++ "\n" ++ renderedFrom (i + 1) (d2 :: r2) from rfl]
        rw [hp]
        have harith : i + 1 + k = i + (k + 1) := by omega
        rw [harith]
        simp [String.append_assoc]

/-- A rendered entry is never the empty string: it starts with the three
characters of the numbering tag. -/
theorem renderEntry_length_pos (k : Nat) (d : FormattedDoc) :
    0 < (renderEntry k d).length := by
  have h : ("文档 " : String).length = 3 := rfl
  simp [renderEntry, String.length_append]
  omega

/-- C8: format is deterministic (a pure function of the result list): the
empty result renders exactly the fixed "no relevant documents" marker
未找到相关文档。; every non-empty result renders as the numbered in-order
recursion over its entries, each entry (numbered from 1) embedding that
chunk's text and source at its position; and the rendering is never the
empty string, so the context is never silently omitted. -/
theorem c8_format_deterministic_rendering :
    format_context_for_prompt [] = "未找到相关文档。" ∧
    (∀ docs : List FormattedDoc, docs ≠ [] →
      format_context_for_prompt docs = renderedFrom 1 docs) ∧
    (∀ (docs : List FormattedDoc) (j : Nat) (hj : j < docs.length),
      ∃ pre post, format_context_for_prompt docs =
        pre ++ renderEntry (1 + j) (docs.get ⟨j, hj⟩) ++ post) ∧
    (∀ docs : List FormattedDoc, format_context_for_prompt docs ≠ "") := by
  have hmain : ∀ docs : List FormattedDoc, docs ≠ [] →
      format_context_for_prompt docs = renderedFrom 1 docs := by
    intro docs hne
    cases docs with
    | nil => exact absurd rfl hne
    | cons d rest =>
      rw [format_context_for_prompt]
      simp only [List.isEmpty_cons, Bool.false_eq_true, if_false]
      exact pyJoin_entries_renderedFrom 1 (d :: rest)
  refine ⟨rfl, hmain, ?_, ?_⟩
  · intro docs j hj
    have hne : docs ≠ [] := by
      intro h
      subst h
      simp at hj
    rw [hmain docs hne]
    exact renderedFrom_contains docs 1 j hj
  · intro docs
    cases docs with
    | nil => decide
    | cons d rest =>
      have hne : (d :: rest) ≠ [] := by simp
      rw [hmain _ hne]
      intro h0
      obtain ⟨pre, post, hp⟩ :=
        renderedFrom_contains (d :: rest) 1 0 (by simp)
      rw [hp] at h0
      have hlen := congrArg String.length h0
      simp only [String.length_append] at hlen
      have hpos := renderEntry_length_pos (1 + 0) ((d :: rest).get ⟨0, by simp⟩)
      have hz : ("" : String).length = 0 := rfl
      omega

/-- C8, witness at a concrete input. -/
theorem c8_format_deterministic_rendering_witness :
    format_context_for_prompt
        [{ content := "A", metadata := [], source := "S" }] =
      renderedFrom 1 [{ content := "A", metadata := [], source := "S" }] :=
  c8_format_deterministic_rendering.2.1
    [{ content := "A", metadata := [], source := "S" }] (by decide)

/-- C9: the chunker is deterministic and stateless — a pure function of
(window, overlap, source id, text), so two runs on identical input produce
identical chunk sequences with identical offsets — chunk j starts at offset
j * (W - O) and holds the W characters of the text from that offset under
the given source id, hence chunk j+1 starts exactly at chunk j's start plus
(W - O); and a non-empty text produces at least one chunk. -/
theorem c9_chunker_deterministic_stride (W O : Nat) (sid : String)
    (text : List Char) (hWO : O < W) :
    Chunker.split W O sid text = Chunker.split W O sid text ∧
    (∀ (j : Nat) (hj : j < (Chunker.split W O sid text).length),
      ((Chunker.split W O sid text).get ⟨j, hj⟩).start = j * (W - O) ∧
      ((Chunker.split W O sid text).get ⟨j, hj⟩).text =
        (text.drop (j * (W - O))).take W ∧
      ((Chunker.split W O sid text).get ⟨j, hj⟩).source_id = sid) ∧
    (∀ (j : Nat) (hj1 : j < (Chunker.split W O sid text).length)
        (hj2 : j + 1 < (Chunker.split W O sid text).length),
      ((Chunker.split W O sid text).get ⟨j + 1, hj2⟩).start =
        ((Chunker.split W O sid text).get ⟨j, hj1⟩).start + (W - O)) ∧
    (text ≠ [] → 0 < (Chunker.split W O sid text).length) := by
  have hget : ∀ (j : Nat) (hj : j < (Chunker.split W O sid text).length),
      (Chunker.split W O sid text).get ⟨j, hj⟩ =
        { text := (text.drop (j * (W - O))).take W, source_id := sid,
          start := j * (W - O) } := by
    intro j hj
    simp [Chunker.split]
  refine ⟨rfl, ?_, ?_, ?_⟩
  · intro j hj
    rw [hget j hj]
    exact ⟨rfl, rfl, rfl⟩
  · intro j hj1 hj2
    rw [hget j hj1, hget (j + 1) hj2]
    show (j + 1) * (W - O) = j * (W - O) + (W - O)
    ring
  · intro hne
    have hlen : (Chunker.split W O sid text).length =
        Chunker.numWindows (W - O) text.length := by
      simp [Chunker.split]
    rw [hlen]
    have hs : 0 < W - O := by omega
    have hl : 0 < text.length := List.length_pos.mpr hne
    show 0 < (text.length + (W - O) - 1) / (W - O)
    exact Nat.div_pos (by omega) hs

/-- C9, witness at a concrete input. -/
theorem c9_chunker_deterministic_stride_witness :
    0 < (Chunker.split 5 2 "doc" ['a', 'b', 'c', 'd']).length :=
  (c9_chunker_deterministic_stride 5 2 "doc" ['a', 'b', 'c', 'd']
    (by decide)).2.2.2 (by decide)

end AIChat
